import Mathlib

/-!
Shallow embedding of the truck-tracker backend (src/backend_api.py).

Vehicle identifiers and the `car` filter string are modelled as `List Char`
so that the comma-splitting and whitespace-stripping done by the code can be
reasoned about.  Timestamps are epoch seconds (`Int`); the SQL `date` column
is modelled as an `Int` with its order.  The float division
`(current_time - timestamp) / 3600` is modelled over `ℚ`: both boundary
quotients (1.0 and 0.5) are exactly representable, and float division of
integer differences is monotone, so the rational model is faithful at every
comparison the code performs.
-/

namespace TruckTracker

/-- Motion state returned by `determine_status`. -/
inductive Status where
  | moving
  | idle
  | stopped
deriving DecidableEq, Repr

/-- A row of `public.tracking_data2`. -/
structure PositionRecord where
  car : List Char
  latitude : ℚ
  longitude : ℚ
  timestamp : Int
  date : Int
deriving DecidableEq, Repr

/-- `STALE_THRESHOLD_HOURS = 1` (backend_api.py line 47). -/
def STALE_THRESHOLD_HOURS : ℚ := 1

/-- `IDLE_THRESHOLD_HOURS = 0.5` (backend_api.py line 48). -/
def IDLE_THRESHOLD_HOURS : ℚ := 1 / 2

/-- `determine_status` (backend_api.py lines 64-72), with `current_time`
(`int(time.time())` in the code) made an explicit parameter. -/
def determine_status (timestamp current_time : Int) : Status :=
  let time_diff_hours : ℚ := (current_time - timestamp : ℚ) / 3600
  if time_diff_hours > STALE_THRESHOLD_HOURS then .stopped
  else if time_diff_hours > IDLE_THRESHOLD_HOURS then .idle
  else .moving

/-- Python `str.lstrip()` on a character list. -/
def lstrip (l : List Char) : List Char := l.dropWhile Char.isWhitespace

/-- Python `str.rstrip()` on a character list. -/
def rstrip (l : List Char) : List Char := (l.reverse.dropWhile Char.isWhitespace).reverse

/-- Python `str.strip()` on a character list. -/
def strip (l : List Char) : List Char := rstrip (lstrip l)

/-- Python `str.split(',')` on a character list; always returns at least one
(possibly empty) token. -/
def splitComma : List Char → List (List Char)
  | [] => [[]]
  | c :: cs =>
    if c = ',' then [] :: splitComma cs
    else
      match splitComma cs with
      | [] => [[c]]
      | h :: t => (c :: h) :: t

/-- The vehicle-id tokens the code derives from a comma-containing
`car_filter` (backend_api.py line 99):
`[vid.strip() for vid in car_filter.split(',') if vid.strip()]`. -/
def vehicleIdsOf (s : List Char) : List (List Char) :=
  (splitComma s).map strip |>.filter (fun v => v ≠ [])

/-- The restriction on the `car` column that `get_truck_locations` builds from
`car_filter` (backend_api.py lines 97-106).  `none`, the empty string, and a
comma-string whose tokens all strip to empty add no restriction. -/
def carPred (car_filter : Option (List Char)) (car : List Char) : Bool :=
  match car_filter with
  | none => true
  | some s =>
    if s = [] then true
    else if ',' ∈ s then
      let ids := vehicleIdsOf s
      if ids = [] then true else decide (car ∈ ids)
    else decide (car = s)

/-- `AND date >= %s` when `date_from` is given (backend_api.py lines 107-109). -/
def dateFromOk (date_from : Option Int) (d : Int) : Bool :=
  match date_from with
  | none => true
  | some lo => decide (lo ≤ d)

/-- `AND date <= %s` when `date_to` is given (backend_api.py lines 110-112). -/
def dateToOk (date_to : Option Int) (d : Int) : Bool :=
  match date_to with
  | none => true
  | some hi => decide (d ≤ hi)

/-- The full row predicate of the snapshot query's WHERE clause. -/
def recPred (car_filter : Option (List Char)) (date_from date_to : Option Int)
    (r : PositionRecord) : Bool :=
  carPred car_filter r.car && dateFromOk date_from r.date && dateToOk date_to r.date

/-- The row with maximum `timestamp` in a list (first such row on ties);
models what `DISTINCT ON (car) ... ORDER BY car, "timestamp" DESC` keeps
within one car group. -/
def maxTsRec : List PositionRecord → Option PositionRecord
  | [] => none
  | r :: rest =>
    match maxTsRec rest with
    | none => some r
    | some b => if b.timestamp > r.timestamp then some b else some r

/-- The `latest_records` CTE (backend_api.py lines 83-119): one row per car
among the rows satisfying the WHERE clause, namely that car's
maximum-timestamp row. -/
def latestRecords (car_filter : Option (List Char)) (date_from date_to : Option Int)
    (rs : List PositionRecord) : List PositionRecord :=
  (((rs.filter (recPred car_filter date_from date_to)).map (fun r => r.car)).dedup).filterMap
    (fun c => maxTsRec ((rs.filter (recPred car_filter date_from date_to)).filter
      (fun r => decide (r.car = c))))

/-- The GeoJSON Feature built per row (backend_api.py lines 123-147). -/
structure Feature where
  id : List Char
  coordinates : ℚ × ℚ
  status : Status
  timestamp : Int
  date : Int
deriving DecidableEq, Repr

/-- One iteration of the feature-building loop (backend_api.py lines 130-147);
`coordinates` is `[longitude, latitude]` in that order. -/
def buildFeature (current_time : Int) (r : PositionRecord) : Feature :=
  { id := r.car
    coordinates := (r.longitude, r.latitude)
    status := determine_status r.timestamp current_time
    timestamp := r.timestamp
    date := r.date }

/-- A repository interaction: either the rows it would serve, or a failure
(connection or query error raised as an exception). -/
abbrev RepoResult := Except Unit (List PositionRecord)

/-- `get_truck_locations` (backend_api.py lines 74-151): on success, one
Feature per latest-per-car filtered row; on any repository exception the
handler at lines 149-151 returns the empty list. -/
def get_truck_locations (car_filter : Option (List Char))
    (date_from date_to : Option Int) (current_time : Int)
    (repo : RepoResult) : List Feature :=
  match repo with
  | .error _ => []
  | .ok rs => (latestRecords car_filter date_from date_to rs).map (buildFeature current_time)

/-- The `status_counts` dictionary (backend_api.py line 178). -/
structure Counts where
  moving : Nat
  idle : Nat
  stopped : Nat
deriving DecidableEq, Repr

/-- `status_counts[status] += 1` (backend_api.py line 181). -/
def incrCount (c : Counts) : Status → Counts
  | .moving => { c with moving := c.moving + 1 }
  | .idle => { c with idle := c.idle + 1 }
  | .stopped => { c with stopped := c.stopped + 1 }

/-- The counting loop over features (backend_api.py lines 178-181), starting
from `{'moving': 0, 'idle': 0, 'stopped': 0}`. -/
def countsOf (fs : List Feature) : Counts :=
  fs.foldl (fun c f => incrCount c f.status) ⟨0, 0, 0⟩

/-- The `counts` object as serialized into the websocket JSON message:
an ordered key-value mapping. -/
def countsList (c : Counts) : List (String × Nat) :=
  [("moving", c.moving), ("idle", c.idle), ("stopped", c.stopped)]

/-- The message pushed by `websocket.send_json` (backend_api.py lines
184-188); `type` is always the literal `"FeatureCollection"`. -/
structure LiveMessage where
  features : List Feature
  counts : Counts
deriving DecidableEq, Repr

/-- The per-session mutable filter variables `car_filter`, `date_from`,
`date_to` of `websocket_endpoint` (backend_api.py lines 156-158). -/
structure Filters where
  car : Option (List Char)
  dateFrom : Option Int
  dateTo : Option Int
deriving DecidableEq, Repr

/-- A well-formed `{filters: {...}}` payload.  The outer `Option` records
whether the key is present in the JSON object; the inner `Option` is the
value, which may itself be an explicit `null`. -/
structure FilterUpdate where
  car : Option (Option (List Char))
  dateFrom : Option (Option Int)
  dateTo : Option (Option Int)
deriving DecidableEq, Repr

/-- What one `receive_json` attempt can yield: a timeout
(`asyncio.TimeoutError`, backend_api.py line 173), any other exception or a
payload that raises while being processed (caught at lines 175-176), a
well-formed JSON value without a `filters` key (line 167 test fails), or a
well-formed filter update. -/
inductive ClientMsg where
  | timeout
  | malformed
  | noFiltersKey
  | update (u : FilterUpdate)
deriving DecidableEq, Repr

/-- Live-session states from the spec's state machine: the loop is
`streaming`; a send failure breaks out of the loop to `closed`. -/
inductive SessionState where
  | streaming
  | closed
deriving DecidableEq, Repr

/-- The filter-update step of the websocket loop (backend_api.py lines
163-176): `filters.get('car', car_filter)` takes the key's value when the
key is present (even an explicit `null`) and keeps the prior value when it
is absent; timeouts, malformed messages and payloads without `filters`
leave all three variables unchanged. -/
def applyMsg (f : Filters) : ClientMsg → Filters
  | .update u =>
    { car := u.car.getD f.car
      dateFrom := u.dateFrom.getD f.dateFrom
      dateTo := u.dateTo.getD f.dateTo }
  | _ => f

/-- One iteration of the `while True` loop of `websocket_endpoint`
(backend_api.py lines 162-192): read one client message, merge filters,
assemble and push a snapshot.  `sendOk` models whether `send_json`
succeeds; a send exception is caught at lines 190-192 and breaks the loop.
Returns the updated filter variables, the pushed message, and the session
state after the iteration. -/
def cycleStep (f : Filters) (msg : ClientMsg) (repo : RepoResult)
    (current_time : Int) (sendOk : Bool) :
    Filters × LiveMessage × SessionState :=
  let f2 := applyMsg f msg
  let features := get_truck_locations f2.car f2.dateFrom f2.dateTo current_time repo
  (f2, { features := features, counts := countsOf features },
    if sendOk then .streaming else .closed)

/-- Insertion into a timestamp-descending list. -/
def insertTsDesc (r : PositionRecord) : List PositionRecord → List PositionRecord
  | [] => [r]
  | x :: xs => if r.timestamp ≤ x.timestamp then x :: insertTsDesc r xs else r :: x :: xs

/-- `ORDER BY "timestamp" DESC` (backend_api.py line 245). -/
def sortTsDesc (l : List PositionRecord) : List PositionRecord :=
  l.foldr insertTsDesc []

/-- `get_truck_history` (backend_api.py lines 227-251): rows for one car,
optionally date-bounded, timestamp-descending; a repository exception is
re-raised as `HTTPException(status_code=500, ...)` (lines 249-251), modelled
as `Except.error 500`. -/
def get_truck_history (car_id : List Char) (date_from date_to : Option Int)
    (repo : RepoResult) : Except Nat (List PositionRecord) :=
  match repo with
  | .error _ => .error 500
  | .ok rs =>
    .ok (sortTsDesc (rs.filter (fun r =>
      decide (r.car = car_id) && dateFromOk date_from r.date && dateToOk date_to r.date)))

/-! ## Helper lemmas -/

theorem maxTsRec_cons_none {rest : List PositionRecord} {a : PositionRecord}
    (h : maxTsRec rest = none) : maxTsRec (a :: rest) = some a := by
  simp [maxTsRec, h]

theorem maxTsRec_cons_some {rest : List PositionRecord} {a b : PositionRecord}
    (h : maxTsRec rest = some b) :
    maxTsRec (a :: rest) = if b.timestamp > a.timestamp then some b else some a := by
  simp [maxTsRec, h]

theorem maxTsRec_eq_none {l : List PositionRecord} : maxTsRec l = none ↔ l = [] := by
  cases l with
  | nil => simp [maxTsRec]
  | cons r rest =>
    simp only [List.cons_ne_nil, iff_false]
    cases hm : maxTsRec rest with
    | none => simp [maxTsRec_cons_none hm]
    | some b =>
      rw [maxTsRec_cons_some hm]
      by_cases hbt : b.timestamp > r.timestamp <;> simp [hbt]

theorem maxTsRec_mem {l : List PositionRecord} {r : PositionRecord}
    (h : maxTsRec l = some r) : r ∈ l := by
  induction l with
  | nil => simp [maxTsRec] at h
  | cons a rest ih =>
    cases hm : maxTsRec rest with
    | none =>
      rw [maxTsRec_cons_none hm] at h
      simp only [Option.some.injEq] at h
      simp [← h]
    | some b =>
      rw [maxTsRec_cons_some hm] at h
      by_cases hbt : b.timestamp > a.timestamp
      · rw [if_pos hbt] at h
        simp only [Option.some.injEq] at h
        subst h
        exact List.mem_cons_of_mem a (ih hm)
      · rw [if_neg hbt] at h
        simp only [Option.some.injEq] at h
        simp [← h]

theorem maxTsRec_le {l : List PositionRecord} :
    ∀ {r : PositionRecord}, maxTsRec l = some r → ∀ x ∈ l, x.timestamp ≤ r.timestamp := by
  induction l with
  | nil => intro r h; simp [maxTsRec] at h
  | cons a rest ih =>
    intro r h x hx
    rcases List.mem_cons.mp hx with hxa | hxr
    · subst hxa
      cases hm : maxTsRec rest with
      | none =>
        rw [maxTsRec_cons_none hm] at h
        simp only [Option.some.injEq] at h
        simp [← h]
      | some b =>
        rw [maxTsRec_cons_some hm] at h
        by_cases hbt : b.timestamp > x.timestamp
        · rw [if_pos hbt] at h
          simp only [Option.some.injEq] at h
          exact le_of_lt (h ▸ hbt)
        · rw [if_neg hbt] at h
          simp only [Option.some.injEq] at h
          simp [← h]
    · cases hm : maxTsRec rest with
      | none =>
        rw [maxTsRec_eq_none.mp hm] at hxr
        simp at hxr
      | some b =>
        rw [maxTsRec_cons_some hm] at h
        have hxb : x.timestamp ≤ b.timestamp := ih hm x hxr
        by_cases hbt : b.timestamp > a.timestamp
        · rw [if_pos hbt] at h
          simp only [Option.some.injEq] at h
          exact h ▸ hxb
        · rw [if_neg hbt] at h
          simp only [Option.some.injEq] at h
          exact le_trans hxb (le_trans (not_lt.mp hbt)
            (le_of_eq (congrArg PositionRecord.timestamp h)))

theorem determine_status_stopped {t now : Int} (h : (now - t : ℚ) / 3600 > 1) :
    determine_status t now = .stopped := by
  simp only [determine_status, STALE_THRESHOLD_HOURS]
  rw [if_pos h]

theorem determine_status_idle {t now : Int} (h1 : (now - t : ℚ) / 3600 ≤ 1)
    (h2 : (now - t : ℚ) / 3600 > 1 / 2) : determine_status t now = .idle := by
  simp only [determine_status, STALE_THRESHOLD_HOURS, IDLE_THRESHOLD_HOURS]
  rw [if_neg (not_lt.mpr h1), if_pos h2]

theorem determine_status_moving {t now : Int} (h : (now - t : ℚ) / 3600 ≤ 1 / 2) :
    determine_status t now = .moving := by
  simp only [determine_status, STALE_THRESHOLD_HOURS, IDLE_THRESHOLD_HOURS]
  rw [if_neg (not_lt.mpr (le_trans h (by norm_num))), if_neg (not_lt.mpr h)]

theorem age_cast (t now : Int) : ((now : ℚ) - (t : ℚ)) = ((now - t : Int) : ℚ) := by
  push_cast; ring

/-! ## C1: status classifier thresholds -/

/-- C1: for all integer timestamps `t` and reference times `now`, the
classifier returns `stopped` iff the age in hours strictly exceeds 1,
otherwise `idle` iff it strictly exceeds 0.5, otherwise `moving`; age
exactly one hour gives `idle`, age zero gives `moving`, and negative ages
(future timestamps) give `moving`. -/
theorem claim_C1 (t now : Int) :
    (((now - t : ℚ) / 3600 > 1) → determine_status t now = .stopped) ∧
    (((now - t : ℚ) / 3600 ≤ 1 ∧ (now - t : ℚ) / 3600 > 1 / 2) →
      determine_status t now = .idle) ∧
    (((now - t : ℚ) / 3600 ≤ 1 / 2) → determine_status t now = .moving) ∧
    (now - t = 3600 → determine_status t now = .idle) ∧
    (now - t = 0 → determine_status t now = .moving) ∧
    (now - t < 0 → determine_status t now = .moving) := by
  refine ⟨determine_status_stopped, fun h => determine_status_idle h.1 h.2,
    determine_status_moving, ?_, ?_, ?_⟩
  · intro h
    refine determine_status_idle ?_ ?_ <;> rw [age_cast, h] <;> norm_num
  · intro h
    refine determine_status_moving ?_
    rw [age_cast, h]
    norm_num
  · intro h
    refine determine_status_moving ?_
    rw [age_cast]
    have : ((now - t : Int) : ℚ) < 0 := by exact_mod_cast h
    nlinarith

/-- Witness for C1 at concrete inputs: age 2h is stopped, age exactly 1h is
idle, age 0 is moving, and a future timestamp is moving. -/
theorem claim_C1_witness :
    determine_status 0 7200 = .stopped ∧ determine_status 0 3600 = .idle ∧
    determine_status 0 0 = .moving ∧ determine_status 3600 0 = .moving :=
  ⟨(claim_C1 0 7200).1 (by norm_num),
   (claim_C1 0 3600).2.2.2.1 (by norm_num),
   (claim_C1 0 0).2.2.2.2.1 (by norm_num),
   (claim_C1 3600 0).2.2.2.2.2 (by norm_num)⟩

/-! ## C2: the 0.5h boundary -/

/-- Counterexample to C2 as stated: at age exactly half an hour
(`now - t = 1800` seconds) the classifier returns `moving`, not `idle`,
because the comparison `time_diff_hours > 0.5` is strict. -/
theorem claim_C2_counterexample :
    determine_status 0 1800 = .moving ∧ determine_status 0 1800 ≠ .idle := by
  have : determine_status 0 1800 = .moving := by
    simp only [determine_status, STALE_THRESHOLD_HOURS, IDLE_THRESHOLD_HOURS]
    norm_num
  exact ⟨this, by simp [this]⟩

/-- C2 amended: at age exactly half an hour the classifier returns `moving`
(the idle branch requires age strictly greater than 0.5 hours). -/
theorem claim_C2_amended (t now : Int) (h : now - t = 1800) :
    determine_status t now = .moving := by
  refine determine_status_moving ?_
  rw [age_cast, h]
  norm_num

/-- Witness for the amended C2 at the concrete input `t = 0`, `now = 1800`. -/
theorem claim_C2_amended_witness : (1800 : Int) - 0 = 1800 ∧ determine_status 0 1800 = .moving :=
  ⟨by norm_num, claim_C2_amended 0 1800 (by norm_num)⟩

/-! ## Latest-per-vehicle characterization -/

/-- A record is in the snapshot query's result exactly when it is the
maximum-timestamp row of its own car among the rows passing the WHERE
clause. -/
theorem mem_latestRecords {cf : Option (List Char)} {df dt : Option Int}
    {rs : List PositionRecord} {r : PositionRecord} :
    r ∈ latestRecords cf df dt rs ↔
      maxTsRec ((rs.filter (recPred cf df dt)).filter
        (fun x => decide (x.car = r.car))) = some r := by
  simp only [latestRecords, List.mem_filterMap]
  constructor
  · rintro ⟨c, hc, hmax⟩
    have hrmem := maxTsRec_mem hmax
    have hcar : r.car = c := of_decide_eq_true (List.mem_filter.mp hrmem).2
    rw [← hcar] at hmax
    exact hmax
  · intro hmax
    refine ⟨r.car, ?_, hmax⟩
    have hrmem := maxTsRec_mem hmax
    have hkeep : r ∈ rs.filter (recPred cf df dt) := (List.mem_filter.mp hrmem).1
    rw [List.mem_dedup, List.mem_map]
    exact ⟨r, hkeep, rfl⟩

theorem map_filterMap_sublist {α β : Type} (f : α → Option β) (g : β → α)
    (h : ∀ a b, f a = some b → g b = a) :
    ∀ l : List α, ((l.filterMap f).map g).Sublist l := by
  intro l
  induction l with
  | nil => simp
  | cons a t ih =>
    cases hf : f a with
    | none =>
      rw [List.filterMap_cons, hf]
      exact ih.cons a
    | some b =>
      rw [List.filterMap_cons, hf, List.map_cons, h a b hf]
      exact ih.cons₂ a

/-- The cars of the snapshot query's rows are pairwise distinct. -/
theorem latestRecords_car_nodup (cf : Option (List Char)) (df dt : Option Int)
    (rs : List PositionRecord) :
    ((latestRecords cf df dt rs).map (fun r => r.car)).Nodup := by
  have hsub := map_filterMap_sublist
    (fun c => maxTsRec ((rs.filter (recPred cf df dt)).filter (fun r => decide (r.car = c))))
    (fun r => r.car)
    (fun c r hc => of_decide_eq_true (List.mem_filter.mp (maxTsRec_mem hc)).2)
    (((rs.filter (recPred cf df dt)).map (fun r => r.car)).dedup)
  exact List.Nodup.sublist hsub (List.nodup_dedup _)

/-! ## C3: one feature per vehicle, from the max-timestamp record -/

/-- C3: for every car filter, date bounds and repository state, the snapshot
has pairwise-distinct vehicle ids (at most one Feature per vehicle), and each
Feature is built from a repository record that satisfies the filter and has
maximal timestamp among that vehicle's filter-satisfying records. -/
theorem claim_C3 (cf : Option (List Char)) (df dt : Option Int)
    (rs : List PositionRecord) (current_time : Int) :
    (((get_truck_locations cf df dt current_time (.ok rs)).map Feature.id).Nodup) ∧
    (∀ ft ∈ get_truck_locations cf df dt current_time (.ok rs),
      ∃ r ∈ rs, recPred cf df dt r = true ∧ ft = buildFeature current_time r ∧
        ∀ x ∈ rs, recPred cf df dt x = true → x.car = r.car →
          x.timestamp ≤ r.timestamp) := by
  constructor
  · have h := latestRecords_car_nodup cf df dt rs
    simpa [get_truck_locations, List.map_map, Function.comp, buildFeature] using h
  · intro ft hft
    simp only [get_truck_locations, List.mem_map] at hft
    obtain ⟨r, hr, rfl⟩ := hft
    have hmax := mem_latestRecords.mp hr
    have hrmem := maxTsRec_mem hmax
    have hkeep : r ∈ rs.filter (recPred cf df dt) := (List.mem_filter.mp hrmem).1
    have hrs : r ∈ rs := (List.mem_filter.mp hkeep).1
    have hpred : recPred cf df dt r = true := (List.mem_filter.mp hkeep).2
    refine ⟨r, hrs, hpred, rfl, ?_⟩
    intro x hx hxp hxc
    refine maxTsRec_le hmax x ?_
    refine List.mem_filter.mpr ⟨List.mem_filter.mpr ⟨hx, hxp⟩, ?_⟩
    exact decide_eq_true hxc

/-- Witness for C3: with two records for car `a` (timestamps 10 and 20) and
one for car `b`, the feature for car `a` comes from the timestamp-20 record. -/
theorem claim_C3_witness :
    ∃ r ∈ [(⟨['a'], 0, 0, 10,5⟩ : PositionRecord), ⟨['a'], 1, 1, 20, 5⟩, ⟨['b'], 2, 2, 30, 5⟩],
      recPred none none none r = true ∧
      buildFeature 100 ⟨['a'], 1, 1, 20, 5⟩ = buildFeature 100 r ∧
      ∀ x ∈ [(⟨['a'], 0, 0, 10, 5⟩ : PositionRecord), ⟨['a'], 1, 1, 20, 5⟩, ⟨['b'], 2, 2, 30, 5⟩],
        recPred none none none x = true → x.car = r.car → x.timestamp ≤ r.timestamp :=
  (claim_C3 none none none
      [⟨['a'], 0, 0, 10, 5⟩, ⟨['a'], 1, 1, 20, 5⟩, ⟨['b'], 2, 2, 30, 5⟩] 100).2
    (buildFeature 100 ⟨['a'], 1, 1, 20, 5⟩)
    (by simp [get_truck_locations, latestRecords, recPred, carPred, dateFromOk, dateToOk,
          maxTsRec, List.filter, List.dedup, List.filterMap, List.insert])

/-! ## C4: counts invariant on every pushed snapshot -/

theorem countsFold_sum (fs : List Feature) :
    ∀ c : Counts,
      (fs.foldl (fun c f => incrCount c f.status) c).moving +
        (fs.foldl (fun c f => incrCount c f.status) c).idle +
        (fs.foldl (fun c f => incrCount c f.status) c).stopped =
      c.moving + c.idle + c.stopped + fs.length := by
  induction fs with
  | nil => intro c; simp
  | cons f t ih =>
    intro c
    simp only [List.foldl_cons, List.length_cons]
    rw [ih]
    cases f.status <;> simp [incrCount] <;> ring

theorem countsOf_sum (fs : List Feature) :
    (countsOf fs).moving + (countsOf fs).idle + (countsOf fs).stopped = fs.length := by
  simpa using countsFold_sum fs ⟨0, 0, 0⟩

/-- C4: every message pushed by a live-loop cycle carries a counts mapping
with all three keys `moving`, `idle`, `stopped`, and the three counts sum to
the number of features of the same message. -/
theorem claim_C4 (f : Filters) (msg : ClientMsg) (repo : RepoResult)
    (current_time : Int) (sendOk : Bool) :
    ((countsList (cycleStep f msg repo current_time sendOk).2.1.counts).lookup "moving"
        = some (cycleStep f msg repo current_time sendOk).2.1.counts.moving) ∧
    ((countsList (cycleStep f msg repo current_time sendOk).2.1.counts).lookup "idle"
        = some (cycleStep f msg repo current_time sendOk).2.1.counts.idle) ∧
    ((countsList (cycleStep f msg repo current_time sendOk).2.1.counts).lookup "stopped"
        = some (cycleStep f msg repo current_time sendOk).2.1.counts.stopped) ∧
    ((cycleStep f msg repo current_time sendOk).2.1.counts.moving +
      (cycleStep f msg repo current_time sendOk).2.1.counts.idle +
      (cycleStep f msg repo current_time sendOk).2.1.counts.stopped =
      (cycleStep f msg repo current_time sendOk).2.1.features.length) := by
  refine ⟨?_, ?_, ?_, ?_⟩
  · simp [countsList, List.lookup]
  · simp [countsList, List.lookup]
  · simp [countsList, List.lookup]
  · exact countsOf_sum _

/-! ## C5: repository failure, live path vs history endpoint -/

/-- C5: a repository failure during a live cycle yields a pushed message
with an empty feature list and all three counts zero, and (when the push
itself succeeds) the session stays `streaming`; the same failure on the
history endpoint is propagated as a 500 error instead of an empty result. -/
theorem claim_C5 (f : Filters) (msg : ClientMsg) (current_time : Int)
    (sendOk : Bool) (car_id : List Char) (date_from date_to : Option Int) :
    (cycleStep f msg (.error ()) current_time sendOk).2.1.features = [] ∧
    (cycleStep f msg (.error ()) current_time sendOk).2.1.counts = ⟨0, 0, 0⟩ ∧
    (sendOk = true → (cycleStep f msg (.error ()) current_time sendOk).2.2 = .streaming) ∧
    get_truck_history car_id date_from date_to (.error ()) = .error 500 := by
  refine ⟨rfl, rfl, ?_, rfl⟩
  intro h
  simp [cycleStep, h]

/-- Witness for C5 at a concrete session state and successful push. -/
theorem claim_C5_witness :
    (cycleStep ⟨none, none, none⟩ .timeout (.error ()) 0 true).2.1.features = [] ∧
    (cycleStep ⟨none, none, none⟩ .timeout (.error ()) 0 true).2.1.counts = ⟨0, 0, 0⟩ ∧
    (cycleStep ⟨none, none, none⟩ .timeout (.error ()) 0 true).2.2 = .streaming ∧
    get_truck_history ['a'] none none (.error ()) = .error 500 := by
  have h := claim_C5 ⟨none, none, none⟩ .timeout 0 true ['a'] none none
  exact ⟨h.1, h.2.1, h.2.2.1 rfl, h.2.2.2⟩

/-! ## C6: partial merge of well-formed filter updates -/

/-- C6: a well-formed filter update is merged field by field — a key present
in the update replaces that filter field with the sent value, and a key
absent from the update leaves that field at its prior value. -/
theorem claim_C6 (f : Filters) (u : FilterUpdate) :
    ((∀ v, u.car = some v → (applyMsg f (.update u)).car = v) ∧
      (u.car = none → (applyMsg f (.update u)).car = f.car)) ∧
    ((∀ v, u.dateFrom = some v → (applyMsg f (.update u)).dateFrom = v) ∧
      (u.dateFrom = none → (applyMsg f (.update u)).dateFrom = f.dateFrom)) ∧
    ((∀ v, u.dateTo = some v → (applyMsg f (.update u)).dateTo = v) ∧
      (u.dateTo = none → (applyMsg f (.update u)).dateTo = f.dateTo)) := by
  refine ⟨⟨?_, ?_⟩, ⟨?_, ?_⟩, ⟨?_, ?_⟩⟩ <;>
    first
      | (intro v h; simp [applyMsg, h])
      | (intro h; simp [applyMsg, h])

/-- Witness for C6: the update `{filters: {car: "x"}}` replaces `car` and
leaves both date bounds at their prior values. -/
theorem claim_C6_witness :
    (applyMsg ⟨some ['a'], some 1, some 2⟩ (.update ⟨some (some ['x']), none, none⟩)).car
        = some ['x'] ∧
    (applyMsg ⟨some ['a'], some 1, some 2⟩ (.update ⟨some (some ['x']), none, none⟩)).dateFrom
        = some 1 ∧
    (applyMsg ⟨some ['a'], some 1, some 2⟩ (.update ⟨some (some ['x']), none, none⟩)).dateTo
        = some 2 :=
  ⟨(claim_C6 ⟨some ['a'], some 1, some 2⟩ ⟨some (some ['x']), none, none⟩).1.1
      (some ['x']) rfl,
   (claim_C6 ⟨some ['a'], some 1, some 2⟩ ⟨some (some ['x']), none, none⟩).2.1.2 rfl,
   (claim_C6 ⟨some ['a'], some 1, some 2⟩ ⟨some (some ['x']), none, none⟩).2.2.2 rfl⟩

/-! ## C7: malformed messages are ignored -/

/-- C7: a client message that is not a well-formed filter update (a raised
exception while receiving or processing it, or a payload without a
`filters` key) leaves all filter fields unchanged, and the cycle still runs
to a successful push with the session remaining `streaming`. -/
theorem claim_C7 (f : Filters) (repo : RepoResult) (current_time : Int)
    (msg : ClientMsg)
    (h : msg = .malformed ∨ msg = .noFiltersKey ∨ msg = .timeout) :
    (cycleStep f msg repo current_time true).1 = f ∧
    (cycleStep f msg repo current_time true).2.2 = .streaming := by
  rcases h with h | h | h <;> subst h <;> exact ⟨rfl, rfl⟩

/-- Witness for C7 on a malformed message at a concrete session state. -/
theorem claim_C7_witness :
    (cycleStep ⟨some ['a'], none, some 3⟩ .malformed (.ok []) 0 true).1
        = ⟨some ['a'], none, some 3⟩ ∧
    (cycleStep ⟨some ['a'], none, some 3⟩ .malformed (.ok []) 0 true).2.2 = .streaming :=
  claim_C7 ⟨some ['a'], none, some 3⟩ (.ok []) 0 .malformed (Or.inl rfl)

/-! ## C9: explicit null in a filter update clears the field -/

/-- C9: a filter update whose key is present with an explicit `null` value
sets that field to `none` — removing the restriction, since the resulting
field filters nothing — rather than retaining the prior value. -/
theorem claim_C9 (f : Filters) (u : FilterUpdate) :
    (u.car = some none → (applyMsg f (.update u)).car = none ∧
      ∀ car, carPred (applyMsg f (.update u)).car car = true) ∧
    (u.dateFrom = some none → (applyMsg f (.update u)).dateFrom = none ∧
      ∀ d, dateFromOk (applyMsg f (.update u)).dateFrom d = true) ∧
    (u.dateTo = some none → (applyMsg f (.update u)).dateTo = none ∧
      ∀ d, dateToOk (applyMsg f (.update u)).dateTo d = true) := by
  refine ⟨?_, ?_, ?_⟩ <;> intro h <;>
    simp [applyMsg, h, carPred, dateFromOk, dateToOk]

/-- Witness for C9: `{filters: {car: null}}` clears a previously set car
filter. -/
theorem claim_C9_witness :
    (applyMsg ⟨some ['a'], some 1, none⟩ (.update ⟨some none, none, none⟩)).car = none ∧
    carPred (applyMsg ⟨some ['a'], some 1, none⟩ (.update ⟨some none, none, none⟩)).car ['z']
      = true := by
  have h := (claim_C9 ⟨some ['a'], some 1, none⟩ ⟨some none, none, none⟩).1 rfl
  exact ⟨h.1, h.2 ['z']⟩

/-! ## C10: degenerate car filter strings restrict nothing -/

/-- C10: a car filter string that is empty, or contains a comma but has only
tokens that strip to empty, restricts no vehicle: every car passes the
predicate and the snapshot equals the unfiltered one. -/
theorem claim_C10 (s : List Char)
    (h : s = [] ∨ (',' ∈ s ∧ vehicleIdsOf s = []))
    (date_from date_to : Option Int) (current_time : Int) (repo : RepoResult) :
    (∀ car, carPred (some s) car = true) ∧
    get_truck_locations (some s) date_from date_to current_time repo =
      get_truck_locations none date_from date_to current_time repo := by
  have hcar : ∀ car, carPred (some s) car = true := by
    intro car
    rcases h with h | ⟨hc, hids⟩
    · simp [carPred, h]
    · have hs : s ≠ [] := List.ne_nil_of_mem hc
      simp [carPred, hs, hc, hids]
  refine ⟨hcar, ?_⟩
  cases repo with
  | error e => rfl
  | ok rs =>
    have hpred : ∀ r ∈ rs, recPred (some s) date_from date_to r =
        recPred none date_from date_to r := by
      intro r _
      simp only [recPred]
      rw [hcar r.car]
      simp [carPred]
    have hfilter : rs.filter (recPred (some s) date_from date_to) =
        rs.filter (recPred none date_from date_to) := List.filter_congr hpred
    simp only [get_truck_locations, latestRecords, hfilter]

/-- Witness for C10 on the filter string `" , "`. -/
theorem claim_C10_witness :
    carPred (some [' ', ',', ' ']) ['z'] = true ∧
    get_truck_locations (some [' ', ',', ' ']) none none 0
        (.ok [⟨['z'], 0, 0, 10, 5⟩]) =
      get_truck_locations none none none 0 (.ok [⟨['z'], 0, 0, 10, 5⟩]) := by
  have h := claim_C10 [' ', ',', ' ']
    (Or.inr ⟨by decide, by decide⟩) none none 0 (.ok [⟨['z'], 0, 0, 10, 5⟩])
  exact ⟨h.1 ['z'], h.2⟩

/-! ## C8: comma-separated car filter is the union of the single filters -/

theorem splitComma_cons_comma (cs : List Char) :
    splitComma (',' :: cs) = [] :: splitComma cs := by
  simp [splitComma]

theorem splitComma_cons_ne {c : Char} (hc : c ≠ ',') {cs : List Char}
    {a : List Char} {t : List (List Char)} (h : splitComma cs = a :: t) :
    splitComma (c :: cs) = (c :: a) :: t := by
  simp [splitComma, hc, h]

theorem splitComma_append_nocomma :
    ∀ A : List Char, (∀ c ∈ A, c ≠ ',') →
      ∀ (l a : List Char) (t : List (List Char)), splitComma l = a :: t →
        splitComma (A ++ l) = (A ++ a) :: t := by
  intro A
  induction A with
  | nil =>
    intro _ l a t hl
    simpa using hl
  | cons x A ih =>
    intro hA l a t hl
    have hx : x ≠ ',' := hA x (List.mem_cons_self x A)
    have h2 := ih (fun c hc => hA c (List.mem_cons_of_mem x hc)) l a t hl
    rw [List.cons_append, splitComma_cons_ne hx h2, List.cons_append]

theorem splitComma_nocomma (A : List Char) (hA : ∀ c ∈ A, c ≠ ',') :
    splitComma A = [A] := by
  have h := splitComma_append_nocomma A hA [] [] [] (by simp [splitComma])
  simpa using h

theorem strip_cons_ws {c : Char} (hc : c.isWhitespace = true) (l : List Char) :
    strip (c :: l) = strip l := by
  simp [strip, lstrip, List.dropWhile_cons, hc]

theorem vehicleIdsOf_pair {A B : List Char} (hA : A ≠ []) (hB : B ≠ [])
    (hAc : ',' ∉ A) (hBc : ',' ∉ B) (hAs : strip A = A) (hBs : strip B = B) :
    vehicleIdsOf (A ++ ',' :: ' ' :: B) = [A, B] := by
  have hAnc : ∀ c ∈ A, c ≠ ',' := fun c hc he => hAc (he ▸ hc)
  have hBnc : ∀ c ∈ B, c ≠ ',' := fun c hc he => hBc (he ▸ hc)
  have hsb : splitComma (' ' :: B) = [' ' :: B] :=
    splitComma_cons_ne (by decide) (splitComma_nocomma B hBnc)
  have h2 : splitComma (',' :: ' ' :: B) = [] :: [' ' :: B] := by
    rw [splitComma_cons_comma, hsb]
  have hsplit : splitComma (A ++ ',' :: ' ' :: B) = [A, ' ' :: B] := by
    have h3 := splitComma_append_nocomma A hAnc (',' :: ' ' :: B) [] [' ' :: B] h2
    simpa using h3
  simp only [vehicleIdsOf, hsplit, List.map_cons, List.map_nil,
    strip_cons_ws (by decide : (' ' : Char).isWhitespace = true), hAs, hBs]
  simp [List.filter, hA, hB]

theorem carPred_single {A : List Char} (hA : A ≠ []) (hAc : ',' ∉ A)
    (car : List Char) : carPred (some A) car = decide (car = A) := by
  simp [carPred, hA, hAc]

theorem carPred_pair {A B : List Char} (hA : A ≠ []) (hB : B ≠ [])
    (hAc : ',' ∉ A) (hBc : ',' ∉ B) (hAs : strip A = A) (hBs : strip B = B)
    (car : List Char) :
    carPred (some (A ++ ',' :: ' ' :: B)) car
      = (decide (car = A) || decide (car = B)) := by
  have hids := vehicleIdsOf_pair hA hB hAc hBc hAs hBs
  have hmem : ',' ∈ A ++ ',' :: ' ' :: B :=
    List.mem_append_right A (List.mem_cons_self _ _)
  have hne : A ++ ',' :: ' ' :: B ≠ [] := List.ne_nil_of_mem hmem
  simp only [carPred, hne, if_neg, if_pos, hmem, hids]
  by_cases h1 : car = A <;> by_cases h2 : car = B <;> simp [h1, h2]

theorem recPred_pair_or {A B : List Char} (hA : A ≠ []) (hB : B ≠ [])
    (hAc : ',' ∉ A) (hBc : ',' ∉ B) (hAs : strip A = A) (hBs : strip B = B)
    (df dt : Option Int) (x : PositionRecord) :
    recPred (some (A ++ ',' :: ' ' :: B)) df dt x
      = (recPred (some A) df dt x || recPred (some B) df dt x) := by
  simp only [recPred, carPred_pair hA hB hAc hBc hAs hBs, carPred_single hA hAc,
    carPred_single hB hBc]
  cases hdA : decide (x.car = A) <;> cases hdB : decide (x.car = B) <;>
    cases hdF : dateFromOk df x.date <;> cases hdT : dateToOk dt x.date <;> simp

theorem recPred_pair_restrict_left {A B : List Char} (hA : A ≠ []) (hB : B ≠ [])
    (hAc : ',' ∉ A) (hBc : ',' ∉ B) (hAs : strip A = A) (hBs : strip B = B)
    (df dt : Option Int) (x : PositionRecord) :
    (decide (x.car = A) && recPred (some (A ++ ',' :: ' ' :: B)) df dt x)
      = (decide (x.car = A) && recPred (some A) df dt x) := by
  simp only [recPred, carPred_pair hA hB hAc hBc hAs hBs, carPred_single hA hAc]
  cases hdA : decide (x.car = A) <;> cases hdB : decide (x.car = B) <;>
    cases hdF : dateFromOk df x.date <;> cases hdT : dateToOk dt x.date <;> simp

theorem recPred_pair_restrict_right {A B : List Char} (hA : A ≠ []) (hB : B ≠ [])
    (hAc : ',' ∉ A) (hBc : ',' ∉ B) (hAs : strip A = A) (hBs : strip B = B)
    (df dt : Option Int) (x : PositionRecord) :
    (decide (x.car = B) && recPred (some (A ++ ',' :: ' ' :: B)) df dt x)
      = (decide (x.car = B) && recPred (some B) df dt x) := by
  simp only [recPred, carPred_pair hA hB hAc hBc hAs hBs, carPred_single hB hBc]
  cases hdA : decide (x.car = A) <;> cases hdB : decide (x.car = B) <;>
    cases hdF : dateFromOk df x.date <;> cases hdT : dateToOk dt x.date <;> simp

theorem latestRecords_union {A B : List Char} (hA : A ≠ []) (hB : B ≠ [])
    (hAc : ',' ∉ A) (hBc : ',' ∉ B) (hAs : strip A = A) (hBs : strip B = B)
    (df dt : Option Int) (rs : List PositionRecord) (r : PositionRecord) :
    r ∈ latestRecords (some (A ++ ',' :: ' ' :: B)) df dt rs ↔
      (r ∈ latestRecords (some A) df dt rs ∨ r ∈ latestRecords (some B) df dt rs) := by
  rw [mem_latestRecords, mem_latestRecords, mem_latestRecords]
  have hLA : r.car = A →
      (rs.filter (recPred (some (A ++ ',' :: ' ' :: B)) df dt)).filter
          (fun x => decide (x.car = r.car))
        = (rs.filter (recPred (some A) df dt)).filter
          (fun x => decide (x.car = r.car)) := by
    intro hc
    rw [List.filter_filter, List.filter_filter]
    refine List.filter_congr ?_
    intro x _
    rw [hc]
    exact recPred_pair_restrict_left hA hB hAc hBc hAs hBs df dt x
  have hLB : r.car = B →
      (rs.filter (recPred (some (A ++ ',' :: ' ' :: B)) df dt)).filter
          (fun x => decide (x.car = r.car))
        = (rs.filter (recPred (some B) df dt)).filter
          (fun x => decide (x.car = r.car)) := by
    intro hc
    rw [List.filter_filter, List.filter_filter]
    refine List.filter_congr ?_
    intro x _
    rw [hc]
    exact recPred_pair_restrict_right hA hB hAc hBc hAs hBs df dt x
  constructor
  · intro hmax
    have hrmem := maxTsRec_mem hmax
    have hpred : recPred (some (A ++ ',' :: ' ' :: B)) df dt r = true :=
      (List.mem_filter.mp (List.mem_filter.mp hrmem).1).2
    have hcar : r.car = A ∨ r.car = B := by
      have h1 : carPred (some (A ++ ',' :: ' ' :: B)) r.car = true := by
        have := (Bool.and_eq_true _ _).mp ((Bool.and_eq_true _ _).mp hpred).1
        exact this.1
      rw [carPred_pair hA hB hAc hBc hAs hBs] at h1
      rcases (Bool.or_eq_true _ _).mp h1 with h | h
      · exact Or.inl (of_decide_eq_true h)
      · exact Or.inr (of_decide_eq_true h)
    rcases hcar with hc | hc
    · exact Or.inl (by rw [← hLA hc]; exact hmax)
    · exact Or.inr (by rw [← hLB hc]; exact hmax)
  · intro hor
    rcases hor with hmax | hmax
    · have hrmem := maxTsRec_mem hmax
      have hpred : recPred (some A) df dt r = true :=
        (List.mem_filter.mp (List.mem_filter.mp hrmem).1).2
      have hc : r.car = A := by
        have h1 : carPred (some A) r.car = true := by
          have := (Bool.and_eq_true _ _).mp ((Bool.and_eq_true _ _).mp hpred).1
          exact this.1
        rw [carPred_single hA hAc] at h1
        exact of_decide_eq_true h1
      rw [hLA hc]
      exact hmax
    · have hrmem := maxTsRec_mem hmax
      have hpred : recPred (some B) df dt r = true :=
        (List.mem_filter.mp (List.mem_filter.mp hrmem).1).2
      have hc : r.car = B := by
        have h1 : carPred (some B) r.car = true := by
          have := (Bool.and_eq_true _ _).mp ((Bool.and_eq_true _ _).mp hpred).1
          exact this.1
        rw [carPred_single hB hBc] at h1
        exact of_decide_eq_true h1
      rw [hLB hc]
      exact hmax

/-- C8: querying the snapshot path with the comma-separated car parameter
`"A, B"` (for ids that are nonempty, comma-free, and carry no surrounding
whitespace, so that trimming leaves them unchanged) yields exactly the
features obtained from querying with `A` alone unioned with those from
querying with `B` alone, under the same date bounds. -/
theorem claim_C8 {A B : List Char} (df dt : Option Int) (current_time : Int)
    (rs : List PositionRecord) (ft : Feature)
    (hA : A ≠ []) (hB : B ≠ []) (hAc : ',' ∉ A) (hBc : ',' ∉ B)
    (hAs : strip A = A) (hBs : strip B = B) :
    ft ∈ get_truck_locations (some (A ++ ',' :: ' ' :: B)) df dt current_time (.ok rs) ↔
      (ft ∈ get_truck_locations (some A) df dt current_time (.ok rs) ∨
        ft ∈ get_truck_locations (some B) df dt current_time (.ok rs)) := by
  simp only [get_truck_locations, List.mem_map]
  constructor
  · rintro ⟨r, hr, rfl⟩
    rcases (latestRecords_union hA hB hAc hBc hAs hBs df dt rs r).mp hr with h | h
    · exact Or.inl ⟨r, h, rfl⟩
    · exact Or.inr ⟨r, h, rfl⟩
  · rintro (⟨r, hr, rfl⟩ | ⟨r, hr, rfl⟩)
    · exact ⟨r, (latestRecords_union hA hB hAc hBc hAs hBs df dt rs r).mpr (Or.inl hr), rfl⟩
    · exact ⟨r, (latestRecords_union hA hB hAc hBc hAs hBs df dt rs r).mpr (Or.inr hr), rfl⟩

/-- Witness for C8: the car filter `"x, y"` on a one-record repository, at
the feature built from that record. -/
theorem claim_C8_witness :
    buildFeature 20 ⟨['x'], 0, 0, 5, 1⟩ ∈
        get_truck_locations (some (['x'] ++ ',' :: ' ' :: ['y'])) none none 20
          (.ok [⟨['x'], 0, 0, 5, 1⟩]) ↔
      (buildFeature 20 ⟨['x'], 0, 0, 5, 1⟩ ∈
          get_truck_locations (some ['x']) none none 20 (.ok [⟨['x'], 0, 0, 5, 1⟩]) ∨
        buildFeature 20 ⟨['x'], 0, 0, 5, 1⟩ ∈
          get_truck_locations (some ['y']) none none 20 (.ok [⟨['x'], 0, 0, 5, 1⟩])) :=
  claim_C8 none none 20 [⟨['x'], 0, 0, 5, 1⟩] (buildFeature 20 ⟨['x'], 0, 0, 5, 1⟩)
    (by decide) (by decide) (by decide) (by decide) (by decide) (by decide)

end TruckTracker
